import Mathlib

/-!
# Verification of the `uri.ts` URI utilities

A shallow embedding of `src/uri/uri.ts` (scheme fixing, RFC-3986-inspired
URI parsing, room-name sanitization, URL-object stringification) together
with proofs of the specified properties.

Strings are modelled as Lean `String`s (lists of characters); all scanning
is done on `String.data`, mirroring the character-level behaviour of the
JavaScript regular expressions and string primitives used by the source.
-/

namespace UriTs

/-- JavaScript `\s` character class (the set matched by `/\s/`). -/
def isJsWs (c : Char) : Bool :=
  c == ' ' || c == '\t' || c == '\n' || c.val == 11 || c.val == 12 ||
  c == '\r' || c.val == 0xa0 || c.val == 0x1680 ||
  (0x2000 ≤ c.val && c.val ≤ 0x200a) || c.val == 0x2028 || c.val == 0x2029 ||
  c.val == 0x202f || c.val == 0x205f || c.val == 0x3000 || c.val == 0xfeff

/-- The `[a-z]` class under the `i` flag: an ASCII letter. -/
def isAsciiLetter (c : Char) : Bool :=
  ('a' ≤ c && c ≤ 'z') || ('A' ≤ c && c ≤ 'Z')

/-- The `[a-z0-9\.\+-]` class under the `i` flag (continuation characters of
a URI scheme). -/
def isSchemeChar (c : Char) : Bool :=
  isAsciiLetter c || ('0' ≤ c && c ≤ '9') || c == '.' || c == '+' || c == '-'

/-- JavaScript truthiness of an optional string: `undefined` and `""` are
falsy, every other string is truthy. -/
def jsTruthy : Option String → Bool
  | none => false
  | some s => !s.data.isEmpty

/-- JavaScript `a || b` on optional strings (first operand kept when truthy). -/
def jsOrOpt (a b : Option String) : Option String :=
  if jsTruthy a then a else b

/-- JavaScript `a || b` where the fallback is a plain (default) string. -/
def jsOrStr (a : Option String) (d : String) : String :=
  match a with
  | some s => if s.data.isEmpty then d else s
  | none => d

/-- JavaScript `a || b` on optional objects: any object (even `{}`) is
truthy, `undefined` is falsy. -/
def jsOrObj {α : Type} (a b : Option α) : Option α :=
  match a with
  | some v => some v
  | none => b

/-- `s.startsWith(pat)` (character-list prefix test). -/
def startsWithL (s pat : String) : Bool :=
  pat.data.isPrefixOf s.data

/-- `s.endsWith(pat)` (character-list suffix test). -/
def endsWithL (s pat : String) : Bool :=
  pat.data.isSuffixOf s.data

/-- Character-list substring scan used to model `s.indexOf(pat) !== -1`. -/
def hasInfixL (pat : List Char) : List Char → Bool
  | [] => pat.isEmpty
  | c :: t => pat.isPrefixOf (c :: t) || hasInfixL pat t

/-- `s.indexOf(pat) !== -1` (substring containment test). -/
def containsSub (s pat : String) : Bool :=
  hasInfixL pat.data s.data

/-- `Array.prototype.join(sep)` for a list of strings. -/
def joinSep (sep : String) : List String → String
  | [] => ""
  | [x] => x
  | x :: rest => x ++ sep ++ joinSep sep rest

/-- One application of the scheme pattern `[a-z][a-z0-9\.\+-]*:` (with the
`i` flag) at the start of the input: on success, returns the matched unit
and the remaining characters.  The match is deterministic: a letter, then
the maximal run of scheme characters, then a mandatory `:`. -/
def matchUnit : List Char → Option (List Char × List Char)
  | [] => none
  | c :: rest =>
    if isAsciiLetter c then
      match rest.dropWhile isSchemeChar with
      | ':' :: tail => some (c :: (rest.takeWhile isSchemeChar ++ [':']), tail)
      | _ => none
    else none

theorem matchUnit_length_lt {s u rest : List Char}
    (h : matchUnit s = some (u, rest)) : rest.length < s.length := by
  match s with
  | [] => simp [matchUnit] at h
  | c :: t =>
    simp only [matchUnit] at h
    split at h
    · split at h
      · next heq =>
        simp only [Option.some.injEq, Prod.mk.injEq] at h
        obtain ⟨-, h2⟩ := h
        subst h2
        have hlen : (List.dropWhile isSchemeChar t).length ≤ t.length :=
          (List.dropWhile_sublist isSchemeChar).length_le
        rw [heq] at hlen
        simp only [List.length_cons] at hlen ⊢
        omega
      · exact absurd h (by simp)
    · exact absurd h (by simp)

/-- Fuel-driven iteration of `matchUnit`; with fuel exceeding the input
length (each unit consumes at least one character) it computes the greedy
match of `([a-z][a-z0-9\.\+-]*:)+`. -/
def matchSchemesFuel : Nat → List Char → Option (List Char × List Char)
  | 0, _ => none
  | fuel + 1, s =>
    match matchUnit s with
    | none => none
    | some (u, rest) =>
      match matchSchemesFuel fuel rest with
      | none => some (u, rest)
      | some p => some p

/-- The iterated scheme pattern `([a-z][a-z0-9\.\+-]*:)+` (with the `gi`
flags) at the start of the input, as used by `_fixURIStringScheme`: on
success returns the capture of the **last** iteration of the group and the
remainder after the whole (greedy) match. -/
def matchSchemes (s : List Char) : Option (List Char × List Char) :=
  matchSchemesFuel (s.length + 1) s

/-- With enough fuel, `matchSchemesFuel` is fuel-independent. -/
theorem matchSchemesFuel_stable :
    ∀ (f₁ f₂ : Nat) (s : List Char), s.length < f₁ → s.length < f₂ →
      matchSchemesFuel f₁ s = matchSchemesFuel f₂ s := by
  intro f₁
  induction f₁ with
  | zero => intro f₂ s h₁; omega
  | succ f ih =>
    intro f₂ s h₁ h₂
    match f₂, h₂ with
    | f₂' + 1, h₂ =>
      simp only [matchSchemesFuel]
      cases hu : matchUnit s with
      | none => rfl
      | some p =>
        obtain ⟨u, rest⟩ := p
        have hlt := matchUnit_length_lt hu
        dsimp only
        rw [ih f₂' rest (by omega) (by omega)]

/-- Unfolding lemma for `matchSchemes` in terms of itself. -/
theorem matchSchemes_eq (s : List Char) :
    matchSchemes s =
      match matchUnit s with
      | none => none
      | some (u, rest) =>
        match matchSchemes rest with
        | none => some (u, rest)
        | some p => some p := by
  unfold matchSchemes
  conv_lhs => rw [matchSchemesFuel]
  cases hu : matchUnit s with
  | none => rfl
  | some p =>
    obtain ⟨u, rest⟩ := p
    have hlt := matchUnit_length_lt hu
    dsimp only
    rw [matchSchemesFuel_stable s.length (rest.length + 1) rest (by omega) (by omega)]

/-- `_fixURIStringScheme` from `uri.ts`: normalizes chained / app-specific
leading schemes to a well-known `http:`/`https:` scheme. -/
def _fixURIStringScheme (uri : String) : String :=
  match matchSchemes uri.data with
  | none => uri
  | some (u, rest) =>
    let protocol : String := ⟨u.map Char.toLower⟩
    let protocol := if protocol = "http:" ∨ protocol = "https:" then protocol else "https:"
    if startsWithL ⟨rest⟩ "//" then protocol ++ ⟨rest⟩ else (⟨rest⟩ : String)

/-- The structural URI record produced by `parseStandardURIString`
(`Uri` type in `uri.ts`); the bound `toString` is an arrow function in
the source, so its zero-argument call is modelled by `uriToStringZeroArg`
and its explicit-argument application by `_standardURIToString`. -/
structure Uri where
  protocol : Option String := none
  host : Option String := none
  hostname : Option String := none
  port : Option String := none
  pathname : String := "/"
  search : String := ""
  hash : String := ""
deriving Repr, DecidableEq

/-- Protocol section of `parseStandardURIString` (regex
`^([a-z][a-z0-9\.\+-]*:)` then `toLowerCase`). -/
def parseProtocol (s : List Char) : Option (List Char) × List Char :=
  match matchUnit s with
  | some (u, rest) => (some (u.map Char.toLower), rest)
  | none => (none, s)

/-- `authority.indexOf('@')`-based userinfo stripping. -/
def stripUserinfo (a : List Char) : List Char :=
  if a.contains '@' then (a.dropWhile (· ≠ '@')).drop 1 else a

/-- `authority.lastIndexOf(':')`-based split into hostname and port. -/
def splitPort (a : List Char) : List Char × Option (List Char) :=
  let revAfter := a.reverse.takeWhile (· ≠ ':')
  if revAfter.length = a.length then (a, none)
  else (a.take (a.length - revAfter.length - 1), some revAfter.reverse)

/-- A character that ends the authority run (`[^/?#]` complement). -/
def isAuthorityEnd (c : Char) : Bool :=
  c == '/' || c == '?' || c == '#'

/-- Authority section of `parseStandardURIString` (regex `^(//[^/?#]+)`,
then userinfo and port splitting).  Returns `(some (host, hostname, port))`
and the remainder on a match, `(none, input)` otherwise. -/
def parseAuthority (s : List Char) :
    Option (List Char × List Char × Option (List Char)) × List Char :=
  match s with
  | '/' :: '/' :: t =>
    let a := t.takeWhile (fun c => !isAuthorityEnd c)
    if a.isEmpty then (none, s)
    else
      let rest := t.dropWhile (fun c => !isAuthorityEnd c)
      let h := stripUserinfo a
      let (hn, p) := splitPort h
      (some (h, hn, p), rest)
  | _ => (none, s)

/-- Pathname section of `parseStandardURIString` (regex `^([^?#]*)`, then
defaulting to `/` and forcing a leading `/`). -/
def parsePathname (s : List Char) : List Char × List Char :=
  let p := s.takeWhile (fun c => !(c == '?' || c == '#'))
  let rest := s.dropWhile (fun c => !(c == '?' || c == '#'))
  (if p.isEmpty then ['/']
   else if p.head? = some '/' then p
   else '/' :: p, rest)

/-- Query section of `parseStandardURIString` (`str.startsWith('?')`,
`str.indexOf('#', 1)`). -/
def parseSearch (s : List Char) : List Char × List Char :=
  match s with
  | '?' :: t => ('?' :: t.takeWhile (· ≠ '#'), t.dropWhile (· ≠ '#'))
  | _ => ([], s)

/-- Fragment section of `parseStandardURIString`
(`str.startsWith('#') ? str : ''`). -/
def parseHash (s : List Char) : List Char :=
  match s with
  | '#' :: _ => s
  | _ => []

/-- `parseStandardURIString` from `uri.ts`: whitespace stripping, then the
protocol / authority / pathname / query / fragment sections in order. -/
def parseStandardURIString (str : String) : Uri :=
  let l := str.data.filter (fun c => !isJsWs c)
  let pr := parseProtocol l
  let au := parseAuthority pr.2
  let pa := parsePathname au.2
  let se := parseSearch pa.2
  let ha := parseHash se.2
  { protocol := pr.1.map (⟨·⟩)
    host := au.1.map (fun a => ⟨a.1⟩)
    hostname := au.1.map (fun a => ⟨a.2.1⟩)
    port := au.1.bind (fun a => a.2.2.map (⟨·⟩))
    pathname := ⟨pa.1⟩
    search := ⟨se.1⟩
    hash := ⟨ha⟩ }

/-- The body of `_standardURIToString` from `uri.ts`, over the five
destructured fields (`const { hash, host, pathname, protocol, search } =
(thiz || this)`); a `none` field models an `undefined` destructuring
result.  Reassembles `protocol + "//" + host + (pathname || '/') + search
+ hash` under JavaScript truthiness checks. -/
def _standardURIToStringOn (protocol host pathname search hash : Option String) : String :=
  let str : String := match protocol with
    | some p => if p.data.isEmpty then "" else p
    | none => ""
  let str := match host with
    | some h => if h.data.isEmpty then str else str ++ "//" ++ h
    | none => str
  let str := str ++ (match pathname with
    | some p => if p.data.isEmpty then "/" else p
    | none => "/")
  let str := match search with
    | some q => if q.data.isEmpty then str else str ++ q
    | none => str
  let str := match hash with
    | some h => if h.data.isEmpty then str else str ++ h
    | none => str
  str

/-- `_standardURIToString(thiz)` applied to an explicit record argument,
so that `thiz || this` is the record itself.  No call site in the source
actually passes the argument — see `uriToStringZeroArg` for the call the
program makes — but this is the evidently intended behaviour of the
attached `toString` (the reassembly the spec describes; the source's own
`TODO: the reference to this here feels wrong` flags the discrepancy). -/
def _standardURIToString (u : Uri) : String :=
  _standardURIToStringOn u.protocol u.host (some u.pathname) (some u.search) (some u.hash)

/-- The module system a build of `uri.ts` is emitted as; it determines
the lexical module-scope `this` that `_standardURIToString`'s
`thiz || this` falls back to on a zero-argument call. -/
inductive ModuleSys
  | cjs
  | esm
deriving Repr, DecidableEq

/-- The zero-argument call `url.toString()` the program makes (line 443 of
`uri.ts`, and the round trip of the spec): `_standardURIToString` is an
**arrow function**, so it has no dynamic receiver; `thiz` is `undefined`
and `thiz || this` resolves to the module-scope `this`.  Under a CommonJS
build that is `module.exports`, which carries none of the five
destructured fields, so the body runs on `undefined` fields; under an
ES-module build the module-scope `this` is itself `undefined` and the
destructuring throws a `TypeError`.  The receiver record is never read. -/
def uriToStringZeroArg (m : ModuleSys) (_receiver : Uri) : Except Unit String :=
  match m with
  | .cjs => .ok (_standardURIToStringOn none none none none none)
  | .esm => .error ()

/-- The character class `_ROOM_EXCLUDE_PATTERN` from `uri.ts`
(`[\:\?#\[\]@!$&'()*+,;=></"]`). -/
def isRoomExcluded (c : Char) : Bool :=
  c == ':' || c == '?' || c == '#' || c == '[' || c == ']' || c == '@' ||
  c == '!' || c == '$' || c == '&' || c == '\'' || c == '(' || c == ')' ||
  c == '*' || c == '+' || c == ',' || c == ';' || c == '=' || c == '>' ||
  c == '<' || c == '/' || c == '"'

/-- `room.replace(new RegExp(_ROOM_EXCLUDE_PATTERN, 'g'), '')`. -/
def sanitizeRoom (r : String) : String :=
  ⟨r.data.filter (fun c => !isRoomExcluded c)⟩

/-- `_fixRoom` from `uri.ts` (truthy rooms are sanitized, falsy values pass
through unchanged). -/
def _fixRoom (room : Option String) : Option String :=
  match room with
  | some r => if r.data.isEmpty then some r else some (sanitizeRoom r)
  | none => none

/-- `pathname.lastIndexOf('/')` as the length of the maximal `/`-free
suffix (the characters after the last `/`; the whole string if none). -/
def afterLastSlash (p : List Char) : List Char :=
  (p.reverse.takeWhile (· ≠ '/')).reverse

/-- `getLocationContextRoot` from `uri.ts`: the pathname up to and
including the last `/`, or `/` when the pathname has no `/`. -/
def getLocationContextRoot (pathname : String) : String :=
  let after := afterLastSlash pathname.data
  if after.length = pathname.data.length then "/"
  else ⟨pathname.data.take (pathname.data.length - after.length)⟩

/-- The extended record produced by `parseURIString` (`UriExtended` in
`uri.ts`). -/
structure UriExtended extends Uri where
  contextRoot : Option String := none
  room : Option String := none
deriving Repr, DecidableEq

/-- `parseURIString` from `uri.ts`, on string inputs (the source returns
`undefined` for non-string inputs before this code runs). -/
def parseURIString (uri : String) : UriExtended :=
  let obj := parseStandardURIString (_fixURIStringScheme uri)
  let contextRoot := getLocationContextRoot obj.pathname
  let pathname := obj.pathname
  let seg := afterLastSlash pathname.data
  let room0 : Option String := if seg.isEmpty then none else some ⟨seg⟩
  let rp : Option String × String :=
    match room0 with
    | none => (none, pathname)
    | some r =>
      let fixedRoom := (_fixRoom (some r)).getD r
      if fixedRoom ≠ r then
        (some fixedRoom,
          (⟨pathname.data.take (pathname.data.length - seg.length)⟩ : String) ++
            (if fixedRoom.data.isEmpty then "" else fixedRoom))
      else (some r, pathname)
  { obj with pathname := rp.2, contextRoot := some contextRoot, room := rp.1 }

/-- The property bag accepted by `urlObjectToString` (`UrlProperties` in
`uri.ts`).  The three override namespaces are modelled as ordered key/value
lists; a value is `some e` when
`encodeURIComponent(JSON.stringify(value))` succeeds with result `e` and
`none` when JSON encoding throws. -/
structure UrlProperties where
  serverURL : Option String := none
  room : Option String := none
  url : Option String := none
  protocol : Option String := none
  scheme : Option String := none
  domain : Option String := none
  host : Option String := none
  hostname : Option String := none
  appLinkScheme : Option String := none
  roomName : Option String := none
  jwt : Option String := none
  config : Option (List (String × Option String)) := none
  configOverwrite : Option (List (String × Option String)) := none
  configOverride : Option (List (String × Option String)) := none
  interfaceConfig : Option (List (String × Option String)) := none
  interfaceConfigOverwrite : Option (List (String × Option String)) := none
  interfaceConfigOverride : Option (List (String × Option String)) := none
  devices : Option (List (String × Option String)) := none
  devicesOverwrite : Option (List (String × Option String)) := none
  devicesOverride : Option (List (String × Option String)) := none
deriving Repr, DecidableEq

/-- The `for ... in` loop body of `_objectToURLParamsArray`, over the
ordered key/value list of the object. -/
def objectToURLParamsList : List (String × Option String) → List String × List String
  | [] => ([], [])
  | (k, some ev) :: rest =>
    let r := objectToURLParamsList rest
    ((k ++ "=" ++ ev) :: r.1, r.2)
  | (k, none) :: rest =>
    let r := objectToURLParamsList rest
    (r.1, k :: r.2)

/-- `_objectToURLParamsArray` from `uri.ts`.  Returns the array of
`key=encoded` parameter strings together with the list of keys for which
encoding failed and a `console.warn` diagnostic was emitted (the explicit
model of the source's try/catch-and-warn loop). -/
def _objectToURLParamsArray (obj : Option (List (String × Option String))) :
    List String × List String :=
  match obj with
  | none => ([], [])
  | some kvs => objectToURLParamsList kvs

/-- Modelled from the spec: the host environment's `new URL(rel, base)`
joining primitive, which is not part of this repository.  Per the spec it
resolves a relative reference against an absolute base by standard
URL-joining semantics and fails (throws) on invalid combinations; the
model resolves a relative reference against an absolute `scheme://host`
base (absolute-path references replace the base path, other references
resolve against the base path's directory) and fails when the base has no
scheme or no authority. -/
def urlJoin (rel base : String) : Option String :=
  let b := parseStandardURIString base
  match b.protocol, b.host with
  | some p, some h =>
    if p.data.isEmpty || h.data.isEmpty then none
    else if startsWithL rel "/" then some (p ++ "//" ++ h ++ rel)
    else some (p ++ "//" ++ h ++ getLocationContextRoot b.pathname ++ rel)
  | _, _ => none

/-- Lines 331–339 of `uri.ts` (`urlObjectToString`): the base-string
normalization (`o.url` vs `o.serverURL`+`o.room`); the `Except` error is
the propagated `new URL` failure. -/
def urlObjectToStringTmp (o : UrlProperties) : Except Unit String :=
  if jsTruthy o.serverURL && jsTruthy o.room then
    match urlJoin (o.room.getD "") (o.serverURL.getD "") with
    | some s => .ok s
    | none => .error ()
  else if jsTruthy o.room then .ok (o.room.getD "")
  else .ok (jsOrStr o.url "")

/-- The `jwt` rewrite (lines 403–415 of `uri.ts`) applied to the working
record's search string: appends `jwt=<value>` unless a `jwt` parameter is
already present. -/
def addJwtToSearch (search jwt : String) : String :=
  if !containsSub search "?jwt=" && !containsSub search "&jwt=" then
    let s1 := if startsWithL search "?" then search else "?" ++ search
    let s2 := if s1.data.length = 1 then s1 else s1 ++ "&"
    s2 ++ "jwt=" ++ jwt
  else search

/-- One iteration of the fragment-override loop (lines 421–439 of
`uri.ts`) for namespace `ns` with resolved override object `obj`,
transforming the accumulated hash string. -/
def addOverridesToHash (hash : String) (ns : String)
    (obj : Option (List (String × Option String))) : String :=
  let urlParamsArray := (_objectToURLParamsArray obj).1
  if urlParamsArray.isEmpty then hash
  else
    let urlParamsString := ns ++ "." ++ joinSep ("&" ++ ns ++ ".") urlParamsArray
    if hash.data.length ≠ 0 then hash ++ ("&" ++ urlParamsString)
    else "#" ++ urlParamsString

/-- Lines 341–441 of `uri.ts` (`urlObjectToString`): builds the working
`Uri` record from the normalized base string and the property bag. -/
def urlObjectToStringRecord (o : UrlProperties) (tmp : String) : Uri :=
  let url := parseStandardURIString (_fixURIStringScheme tmp)
  -- protocol
  let url :=
    if jsTruthy url.protocol then url
    else
      let protocol := jsOrOpt o.protocol o.scheme
      if jsTruthy protocol then
        let p := protocol.getD ""
        { url with protocol := some (if endsWithL p ":" then p else p ++ ":") }
      else url
  -- authority & pathname
  let pathname := url.pathname
  let up : Uri × String :=
    if jsTruthy url.host then (url, pathname)
    else
      let domain := jsOrOpt (jsOrOpt o.domain o.host) o.hostname
      if jsTruthy domain && jsTruthy o.appLinkScheme then
        let r := parseStandardURIString
          (_fixURIStringScheme ((o.appLinkScheme.getD "") ++ "//" ++ (domain.getD "")))
        let url' :=
          if jsTruthy r.host then
            { url with host := r.host, hostname := r.hostname, port := r.port }
          else url
        let pathname' :=
          if pathname = "/" && r.pathname ≠ "/" then r.pathname else pathname
        (url', pathname')
      else (url, pathname)
  let url := up.1
  let pathname := up.2
  -- pathname: Web's ExternalAPI roomName
  let room := jsOrOpt o.roomName o.room
  let pathname :=
    if jsTruthy room &&
        (endsWithL url.pathname "/" || !endsWithL url.pathname ("/" ++ room.getD "")) then
      (if endsWithL pathname "/" then pathname else pathname ++ "/") ++ room.getD ""
    else pathname
  let url := { url with pathname := pathname }
  -- query/search: Web's ExternalAPI jwt
  let url :=
    if jsTruthy o.jwt then { url with search := addJwtToSearch url.search (o.jwt.getD "") }
    else url
  -- fragment/hash
  let hash := url.hash
  let hash := addOverridesToHash hash "config"
    (jsOrObj (jsOrObj o.configOverwrite o.config) o.configOverride)
  let hash := addOverridesToHash hash "interfaceConfig"
    (jsOrObj (jsOrObj o.interfaceConfigOverwrite o.interfaceConfig) o.interfaceConfigOverride)
  let hash := addOverridesToHash hash "devices"
    (jsOrObj (jsOrObj o.devicesOverwrite o.devices) o.devicesOverride)
  { url with hash := hash }

/-- `urlObjectToString` from `uri.ts`, parameterized by the module system
of the build: an `Except.error` models a thrown failure (the propagated
`new URL` failure or, under an ES-module build, the `TypeError` thrown by
the zero-argument `url.toString()`); the inner `Option` models the
`url.toString() || undefined` result. -/
def urlObjectToString (m : ModuleSys) (o : UrlProperties) : Except Unit (Option String) :=
  match urlObjectToStringTmp o with
  | .error e => .error e
  | .ok tmp =>
    let url := urlObjectToStringRecord o tmp
    match uriToStringZeroArg m url with
    | .error e => .error e
    | .ok s => .ok (if s.data.isEmpty then none else some s)

/-! ## Helper lemmas -/

theorem takeWhile_append_all {p : Char → Bool} {l : List Char} (r : List Char)
    (h : ∀ c ∈ l, p c = true) :
    (l ++ r).takeWhile p = l ++ r.takeWhile p := by
  induction l with
  | nil => simp
  | cons a t ih =>
    have ha : p a = true := h a (by simp)
    simp only [List.cons_append, List.takeWhile_cons, ha, if_true, List.cons.injEq, true_and]
    exact ih fun c hc => h c (by simp [hc])

theorem dropWhile_append_all {p : Char → Bool} {l : List Char} (r : List Char)
    (h : ∀ c ∈ l, p c = true) :
    (l ++ r).dropWhile p = r.dropWhile p := by
  induction l with
  | nil => simp
  | cons a t ih =>
    have ha : p a = true := h a (by simp)
    simp only [List.cons_append, List.dropWhile_cons, ha, if_true]
    exact ih fun c hc => h c (by simp [hc])

theorem takeWhile_cons_of_neg {p : Char → Bool} {a : Char} (l : List Char)
    (h : p a = false) : (a :: l).takeWhile p = [] := by
  simp [List.takeWhile_cons, h]

theorem dropWhile_cons_of_neg {p : Char → Bool} {a : Char} (l : List Char)
    (h : p a = false) : (a :: l).dropWhile p = a :: l := by
  simp [List.dropWhile_cons, h]

theorem data_append (a b : String) : (a ++ b).data = a.data ++ b.data := rfl

theorem mk_append_mk (a b : List Char) : (⟨a⟩ : String) ++ (⟨b⟩ : String) = ⟨a ++ b⟩ := rfl

/-- The first component of `parsePathname` always starts with `/`. -/
theorem parsePathname_fst_startsSlash (l : List Char) :
    ∃ t, (parsePathname l).1 = '/' :: t := by
  unfold parsePathname
  dsimp only
  cases hp : l.takeWhile (fun c => !(c == '?' || c == '#')) with
  | nil => exact ⟨[], by simp⟩
  | cons a t =>
    by_cases ha : a = '/'
    · subst ha
      exact ⟨t, by simp⟩
    · refine ⟨a :: t, ?_⟩
      have : ((a :: t).head? = some '/') = False := by
        simp only [List.head?_cons, Option.some.injEq, eq_iff_iff, iff_false]
        exact ha
      simp [this, ha]

/-- `startsWithL s "/"` holds exactly of strings whose data begins with `/`. -/
theorem startsWithL_slash {t : List Char} : startsWithL ⟨'/' :: t⟩ "/" = true := by
  simp [startsWithL, List.isPrefixOf]

/-! ## C1 -/

/-- C1: For every input string, `parseStandardURIString` returns a record
(the embedding is a total function, mirroring the source's lack of any
failure path), and the returned record's `pathname` field always starts
with `/`. -/
theorem C1_parse_pathname_starts_slash (s : String) :
    startsWithL (parseStandardURIString s).pathname "/" = true := by
  unfold parseStandardURIString
  dsimp only
  obtain ⟨t, ht⟩ := parsePathname_fst_startsSlash
    (parseAuthority (parseProtocol (s.data.filter (fun c => !isJsWs c))).2).2
  rw [ht]
  exact startsWithL_slash

/-! ## C3 -/

/-- The final segment of the pathname produced by scheme fixing followed by
standard parsing (the room candidate of `parseURIString`). -/
def lastSegmentOfParsed (uri : String) : String :=
  ⟨afterLastSlash (parseStandardURIString (_fixURIStringScheme uri)).pathname.data⟩

/-- C3 counterexample: the claim states that `room` is `undefined` whenever
the sanitized final segment is empty, including when a non-empty segment is
sanitized down to nothing.  For `"https://x/!!!"` the final segment `"!!!"`
sanitizes to the empty string, yet the source stores the (empty) sanitized
string itself, not `undefined`: `room` is `some ""`, not `none`. -/
theorem C3_counterexample :
    lastSegmentOfParsed "https://x/!!!" = "!!!" ∧
    sanitizeRoom "!!!" = "" ∧
    (parseURIString "https://x/!!!").room = some "" ∧
    (parseURIString "https://x/!!!").room ≠ none := by
  refine ⟨by decide, by decide, by decide, by decide⟩

/-- C3 amended: the `room` field of `parseURIString uri` is `none` exactly
when the final pathname segment is empty; a non-empty segment always yields
`some` of its sanitized value — the empty string (not `none`) when
sanitization removed every character. -/
theorem C3_room_characterization (uri : String) :
    (parseURIString uri).room =
      (if (lastSegmentOfParsed uri).data.isEmpty then none
       else some (sanitizeRoom (lastSegmentOfParsed uri))) := by
  unfold parseURIString lastSegmentOfParsed
  dsimp only
  cases hseg : afterLastSlash
      (parseStandardURIString (_fixURIStringScheme uri)).pathname.data with
  | nil => simp
  | cons a t =>
    have hfix : _fixRoom (some (⟨a :: t⟩ : String)) = some (sanitizeRoom ⟨a :: t⟩) := by
      unfold _fixRoom
      simp
    simp only [List.isEmpty_cons, Bool.false_eq_true, if_false, hfix, Option.getD_some]
    by_cases hch : sanitizeRoom (⟨a :: t⟩ : String) = (⟨a :: t⟩ : String)
    · simp only [hch, ne_eq, not_true_eq_false, if_false]
    · simp only [ne_eq, hch, not_false_eq_true, if_true]

/-! ## C4 -/

/-- When `/` occurs in `l`, the run after the last `/` is shorter than `l`. -/
theorem afterLastSlash_length_lt {l : List Char} (h : '/' ∈ l) :
    (afterLastSlash l).length < l.length := by
  unfold afterLastSlash
  rw [List.length_reverse]
  have h' : '/' ∈ l.reverse := by simpa using h
  by_contra hle
  push_neg at hle
  have hlen : (l.reverse.takeWhile (· ≠ '/')).length = l.reverse.length :=
    le_antisymm ((List.takeWhile_sublist _).length_le)
      (by simpa using hle)
  have heq : l.reverse.takeWhile (· ≠ '/') = l.reverse :=
    (List.takeWhile_sublist _).eq_of_length hlen
  have := List.takeWhile_eq_self_iff.mp heq '/' h'
  simp at this

/-- The parsed pathname always has `/` as its first character. -/
theorem parseStandard_pathname_cons (s : String) :
    ∃ t, (parseStandardURIString s).pathname.data = '/' :: t := by
  unfold parseStandardURIString
  dsimp only
  exact parsePathname_fst_startsSlash _

/-- C4: whenever sanitizing the final path segment changed its value, the
record returned by `parseURIString` has
`pathname = contextRoot ++ sanitized room` (and stores the sanitized value
as `room`); in particular the spec's concrete example holds. -/
theorem C4_pathname_consistency :
    (∀ uri : String,
      sanitizeRoom (lastSegmentOfParsed uri) ≠ lastSegmentOfParsed uri →
        (parseURIString uri).pathname =
          (parseURIString uri).contextRoot.getD "" ++
            sanitizeRoom (lastSegmentOfParsed uri) ∧
        (parseURIString uri).room = some (sanitizeRoom (lastSegmentOfParsed uri))) ∧
    (parseURIString "https://meet.example.com/My:Room!").room = some "MyRoom" ∧
    (parseURIString "https://meet.example.com/My:Room!").pathname = "/MyRoom" := by
  refine ⟨?_, by decide, by decide⟩
  intro uri hch
  obtain ⟨t0, ht0⟩ := parseStandard_pathname_cons (_fixURIStringScheme uri)
  unfold lastSegmentOfParsed at hch ⊢
  unfold parseURIString
  dsimp only
  cases hseg : afterLastSlash
      (parseStandardURIString (_fixURIStringScheme uri)).pathname.data with
  | nil =>
    rw [hseg] at hch
    simp [sanitizeRoom] at hch
  | cons a t =>
    rw [hseg] at hch
    have hfix : _fixRoom (some (⟨a :: t⟩ : String)) = some (sanitizeRoom ⟨a :: t⟩) := by
      unfold _fixRoom
      simp
    have hslash : '/' ∈ (parseStandardURIString (_fixURIStringScheme uri)).pathname.data := by
      rw [ht0]
      simp
    have hlt : (a :: t).length <
        (parseStandardURIString (_fixURIStringScheme uri)).pathname.data.length := by
      rw [← hseg]
      exact afterLastSlash_length_lt hslash
    have hroot : getLocationContextRoot
        (parseStandardURIString (_fixURIStringScheme uri)).pathname =
        ⟨(parseStandardURIString (_fixURIStringScheme uri)).pathname.data.take
          ((parseStandardURIString (_fixURIStringScheme uri)).pathname.data.length -
            (a :: t).length)⟩ := by
      unfold getLocationContextRoot
      rw [hseg]
      rw [if_neg (by omega)]
    simp only [List.isEmpty_cons, Bool.false_eq_true, if_false, hfix, Option.getD_some,
      ne_eq, hch, not_false_eq_true, if_true, hroot]
    refine ⟨?_, trivial⟩
    by_cases hemp : (sanitizeRoom (⟨a :: t⟩ : String)).data.isEmpty
    · have hz : sanitizeRoom (⟨a :: t⟩ : String) = "" := by
        apply String.ext
        simpa [List.isEmpty_iff] using hemp
      simp [hemp, hz]
    · simp only [hemp, Bool.false_eq_true, if_false]

/-- C4 witness: the general implication applied at the spec's example. -/
theorem C4_witness :
    (parseURIString "https://meet.example.com/My:Room!").pathname =
      (parseURIString "https://meet.example.com/My:Room!").contextRoot.getD "" ++
        sanitizeRoom (lastSegmentOfParsed "https://meet.example.com/My:Room!") ∧
    (parseURIString "https://meet.example.com/My:Room!").room =
      some (sanitizeRoom (lastSegmentOfParsed "https://meet.example.com/My:Room!")) :=
  C4_pathname_consistency.1 "https://meet.example.com/My:Room!" (by decide)

/-! ## C10 -/

theorem append_right_ne_nil {a b : String} (h : b.data ≠ []) : (a ++ b).data ≠ [] := by
  rw [data_append]
  intro hcon
  exact h (List.append_eq_nil.mp hcon).2

theorem append_left_ne_nil {a b : String} (h : a.data ≠ []) : (a ++ b).data ≠ [] := by
  rw [data_append]
  intro hcon
  exact h (List.append_eq_nil.mp hcon).1

/-- `_standardURIToString` never produces the empty string: the
`pathname || '/'` component contributes at least one character. -/
theorem _standardURIToString_ne_nil (u : Uri) : (_standardURIToString u).data ≠ [] := by
  unfold _standardURIToString _standardURIToStringOn
  dsimp only
  have hmid : (if u.pathname.data.isEmpty then ("/" : String) else u.pathname).data ≠ [] := by
    split
    · decide
    · next h => simpa [List.isEmpty_iff] using h
  split
  · split
    · exact append_right_ne_nil hmid
    · exact append_left_ne_nil (append_right_ne_nil hmid)
  · split
    · exact append_left_ne_nil (append_right_ne_nil hmid)
    · exact append_left_ne_nil (append_left_ne_nil (append_right_ne_nil hmid))

/-- C10 counterexample: the claim's mechanism and conclusion both fail on
the program's zero-argument `toString()`: the receiver record's pathname
is never consulted (a record with pathname `/abc` still stringifies to
`/` under a CommonJS build), and under an ES-module build
`urlObjectToString` throws even for a bag whose URL join is never
attempted, instead of returning a string. -/
theorem C10_counterexample :
    uriToStringZeroArg ModuleSys.cjs { pathname := "/abc" } = .ok "/" ∧
    ("/" : String) ≠ "/abc" ∧
    jsTruthy ({} : UrlProperties).serverURL = false ∧
    urlObjectToString ModuleSys.esm {} = .error () := by
  refine ⟨by rfl, by decide, by decide, by rfl⟩

/-- C10 amended: under a CommonJS build, for every property bag for which
the URL join does not throw, `urlObjectToString` returns a non-empty
string — in fact always `"/"` — and never `undefined`: the zero-argument
`toString()` reads the module-scope `this` rather than the record, all
five fields are `undefined` there, and the `pathname || '/'` fallback
makes the result `"/"`, so the branch mapping an empty result to
`undefined` is indeed unreachable.  (Under an ES-module build the same
call throws a `TypeError` instead.) -/
theorem C10_result_nonempty (o : UrlProperties) (r : Option String)
    (h : urlObjectToString ModuleSys.cjs o = .ok r) : r = some "/" := by
  unfold urlObjectToString at h
  cases htmp : urlObjectToStringTmp o with
  | error e => rw [htmp] at h; exact absurd h (by simp)
  | ok tmp =>
    rw [htmp] at h
    dsimp only at h
    rw [show uriToStringZeroArg ModuleSys.cjs (urlObjectToStringRecord o tmp) =
      .ok "/" from rfl] at h
    dsimp only at h
    rw [show (if ("/" : String).data.isEmpty then (none : Option String) else some "/") =
      some "/" from rfl] at h
    exact (Except.ok.injEq _ _ |>.mp h).symm

/-- C10 witness: the amended theorem applied at the empty property bag. -/
theorem C10_witness : (some "/" : Option String) = some "/" :=
  C10_result_nonempty {} (some "/") (by rfl)

/-! ## C8 -/

/-- Claim C8's description of the jwt query rewrite, written from the
spec's words: if no `jwt` parameter is present (substring check for
`?jwt=` / `&jwt=`), ensure the search starts with `?`, add a separating
`&` if other parameters already exist, and append `jwt=<value>` verbatim;
otherwise leave the search unchanged. -/
def specC8AddJwt (search jwt : String) : String :=
  if containsSub search "?jwt=" || containsSub search "&jwt=" then search
  else
    let s1 := if startsWithL search "?" then search else "?" ++ search
    if s1 = "?" then s1 ++ ("jwt=" ++ jwt) else s1 ++ ("&" ++ ("jwt=" ++ jwt))

theorem startsq_len_iff {s : String} (h : startsWithL s "?" = true) :
    s.data.length = 1 ↔ s = "?" := by
  unfold startsWithL at h
  have hpre : ("?".data : List Char) <+: s.data := by
    rw [← List.isPrefixOf_iff_prefix]
    exact h
  obtain ⟨t, ht⟩ := hpre
  constructor
  · intro hlen
    apply String.ext
    rw [← ht] at hlen ⊢
    simp only [List.length_append, List.length_cons] at hlen
    have : t = [] := by
      rw [List.length_nil] at hlen
      exact List.eq_nil_of_length_eq_zero (by simpa using hlen)
    simp [this]
  · intro hq
    rw [hq]
    rfl

theorem string_append_assoc (a b c : String) : a ++ b ++ c = a ++ (b ++ c) := by
  apply String.ext
  simp only [data_append, List.append_assoc]

/-- C8: when `jwt` is supplied and the working search string does not
already contain a `jwt` parameter, the search is rewritten exactly as the
spec describes (leading `?`, separating `&` when parameters exist,
`jwt=<value>` appended verbatim), and is left unchanged otherwise; for
the spec's concrete example the working record ends with pathname `/r`
and search exactly `?jwt=abc`. -/
theorem C8_jwt_rewrite :
    (∀ search jwt : String, addJwtToSearch search jwt = specC8AddJwt search jwt) ∧
    (urlObjectToStringRecord { room := some "r", jwt := some "abc" } "r").pathname = "/r" ∧
    endsWithL (urlObjectToStringRecord { room := some "r", jwt := some "abc" } "r").pathname
      "/r" = true ∧
    (urlObjectToStringRecord { room := some "r", jwt := some "abc" } "r").search = "?jwt=abc" := by
  refine ⟨?_, by decide, by decide, by decide⟩
  intro search jwt
  unfold addJwtToSearch specC8AddJwt
  cases hA : containsSub search "?jwt="
  case true =>
    simp [hA]
  case false =>
  cases hB : containsSub search "&jwt="
  case true =>
    simp [hA, hB]
  case false =>
  simp only [hA, hB, Bool.not_false, Bool.and_self, if_true, Bool.or_self, if_false]
  have hq : startsWithL (if startsWithL search "?" = true then search else "?" ++ search)
      "?" = true := by
    split
    · assumption
    · simp [startsWithL, data_append, List.isPrefixOf]
  by_cases hlen :
      (if startsWithL search "?" = true then search else "?" ++ search).data.length = 1
  · rw [if_pos hlen, if_pos ((startsq_len_iff hq).mp hlen)]
    rw [string_append_assoc]
    simp
  · rw [if_neg hlen, if_neg (fun hcon => hlen ((startsq_len_iff hq).mpr hcon))]
    rw [string_append_assoc, string_append_assoc]
    simp

/-! ## C5 -/

/-- Claim C5's base-string selection written from the claim's words, with
"present" read literally as "the optional field was supplied". -/
def specC5BasePresent (o : UrlProperties) : Except Unit String :=
  if o.serverURL.isSome && o.room.isSome then
    match urlJoin (o.room.getD "") (o.serverURL.getD "") with
    | some s => .ok s
    | none => .error ()
  else if o.room.isSome then .ok (o.room.getD "")
  else .ok (o.url.getD "")

/-- Claim C5's base-string selection as amended: "present" means
"supplied and non-empty" (JavaScript truthiness). -/
def specC5BaseTruthy (o : UrlProperties) : Except Unit String :=
  if jsTruthy o.serverURL && jsTruthy o.room then
    match urlJoin (o.room.getD "") (o.serverURL.getD "") with
    | some s => .ok s
    | none => .error ()
  else if jsTruthy o.room then .ok (o.room.getD "")
  else .ok (if jsTruthy o.url then o.url.getD "" else "")

/-- C5 counterexample, refuting the claim at two points.  First, for the
bag `{serverURL: "", room: "r"}` both fields are present (supplied), so
the claim requires the base to come from URL-joining `"r"` against `""`
— which fails, i.e. a thrown error; the code instead treats the empty
`serverURL` as absent and uses `"r"` verbatim.  Second, for the spec's
example bag the joined base string is correct, but the full call does not
return it: the zero-argument `url.toString()` is an arrow function that
never reads the record, so under a CommonJS build the call returns `"/"`,
not `"https://meet.example.com/team-sync"`. -/
theorem C5_counterexample :
    specC5BasePresent { serverURL := some "", room := some "r" } = .error () ∧
    urlObjectToStringTmp { serverURL := some "", room := some "r" } = .ok "r" ∧
    urlObjectToStringTmp
        { serverURL := some "https://meet.example.com/", room := some "team-sync" } =
      .ok "https://meet.example.com/team-sync" ∧
    urlObjectToString ModuleSys.cjs
        { serverURL := some "https://meet.example.com/", room := some "team-sync" } =
      .ok (some "/") ∧
    (some "/" : Option String) ≠ some "https://meet.example.com/team-sync" := by
  refine ⟨by rfl, by rfl, by rfl, by rfl, by decide⟩

/-- C5 amended: `urlObjectToString` selects its base string with the
claimed precedence where "present" means "non-empty": join `room` against
`serverURL` when both are non-empty (propagating join failure), else
`room` verbatim when non-empty, else `url` when non-empty, else the empty
string; for the spec's example the selected base string is
`https://meet.example.com/team-sync` (the full call does not return that
string, because the zero-argument `toString()` never reads the record —
see the counterexample). -/
theorem C5_base_precedence :
    (∀ o : UrlProperties, urlObjectToStringTmp o = specC5BaseTruthy o) ∧
    urlObjectToStringTmp
        { serverURL := some "https://meet.example.com/", room := some "team-sync" } =
      .ok "https://meet.example.com/team-sync" := by
  refine ⟨?_, by rfl⟩
  intro o
  unfold urlObjectToStringTmp specC5BaseTruthy jsOrStr
  cases o.url with
  | none => simp [jsTruthy]
  | some s =>
    by_cases hs : s.data.isEmpty <;> simp [jsTruthy, hs]

/-! ## C9 -/

/-- C9 counterexample: under an ES-module build the zero-argument
`url.toString()` itself throws for every bag — here one with neither
`serverURL` nor `room` set, so no URL join is even attempted — hence the
URL-joining failure is not the only failure that propagates out of
`urlObjectToString`. -/
theorem C9_counterexample :
    urlObjectToString ModuleSys.esm {} = .error () ∧
    jsTruthy ({} : UrlProperties).serverURL = false ∧
    jsTruthy ({} : UrlProperties).room = false := by
  refine ⟨by rfl, by decide, by decide⟩

/-- C9 amended: a JSON-encoding failure for one fragment-override key is
recovered locally — that key is skipped and reported (a diagnostic), the
remaining keys still produce their parameters — and under a CommonJS
build the URL-joining failure when both `serverURL` and `room` are
non-empty is the only error that propagates out of `urlObjectToString`;
under an ES-module build every call throws (at the latest at the final
zero-argument `toString()`, whose destructuring of the undefined
module-scope `this` fails). -/
theorem C9_error_recovery :
    (∀ (pre post : List (String × Option String)) (k : String),
      _objectToURLParamsArray (some (pre ++ (k, none) :: post)) =
        ((_objectToURLParamsArray (some pre)).1 ++ (_objectToURLParamsArray (some post)).1,
         (_objectToURLParamsArray (some pre)).2 ++
           k :: (_objectToURLParamsArray (some post)).2)) ∧
    (∀ o : UrlProperties,
      urlObjectToString ModuleSys.cjs o = .error () ↔
        jsTruthy o.serverURL = true ∧ jsTruthy o.room = true ∧
          urlJoin (o.room.getD "") (o.serverURL.getD "") = none) ∧
    (∀ o : UrlProperties, urlObjectToString ModuleSys.esm o = .error ()) := by
  refine ⟨?_, ?_, ?_⟩
  · intro pre post k
    induction pre with
    | nil => simp [_objectToURLParamsArray, objectToURLParamsList]
    | cons kv rest ih =>
      obtain ⟨k', v'⟩ := kv
      cases v' <;> simp_all [_objectToURLParamsArray, objectToURLParamsList]
  · intro o
    unfold urlObjectToString urlObjectToStringTmp
    cases hsv : jsTruthy o.serverURL
    · cases hrm : jsTruthy o.room <;> simp [hsv, hrm, uriToStringZeroArg]
    · cases hrm : jsTruthy o.room
      · simp [hsv, hrm, uriToStringZeroArg]
      · cases hj : urlJoin (o.room.getD "") (o.serverURL.getD "") <;>
          simp [hsv, hrm, hj, uriToStringZeroArg]
  · intro o
    unfold urlObjectToString
    cases htmp : urlObjectToStringTmp o with
    | error e => rfl
    | ok tmp => rfl

/-! ## C7 -/

/-- `matchSchemes` fails exactly when a single unit match fails. -/
theorem matchSchemes_none_iff (s : List Char) :
    matchSchemes s = none ↔ matchUnit s = none := by
  rw [matchSchemes_eq]
  cases hu : matchUnit s with
  | none => simp
  | some p =>
    obtain ⟨u, rest⟩ := p
    dsimp only
    cases hm : matchSchemes rest <;> simp

/-- Greedy maximality: after the whole `(scheme)+` match, no further unit
matches at the remainder. -/
theorem matchSchemes_rest_none {s u rest : List Char}
    (h : matchSchemes s = some (u, rest)) : matchUnit rest = none := by
  have key : ∀ (n : Nat) (s : List Char), s.length ≤ n → ∀ u rest,
      matchSchemes s = some (u, rest) → matchUnit rest = none := by
    intro n
    induction n with
    | zero =>
      intro s hs u rest h
      have hnil : s = [] := List.eq_nil_of_length_eq_zero (Nat.le_zero.mp hs)
      subst hnil
      rw [matchSchemes_eq] at h
      exact absurd h (by simp [matchUnit])
    | succ n ih =>
      intro s hs u rest h
      rw [matchSchemes_eq] at h
      cases hu : matchUnit s with
      | none => rw [hu] at h; exact absurd h (by simp)
      | some p =>
        obtain ⟨u', rest'⟩ := p
        rw [hu] at h
        dsimp only at h
        cases hm : matchSchemes rest' with
        | none =>
          rw [hm] at h
          simp only [Option.some.injEq, Prod.mk.injEq] at h
          obtain ⟨-, h2⟩ := h
          subst h2
          exact (matchSchemes_none_iff rest').mp hm
        | some p' =>
          rw [hm] at h
          simp only [Option.some.injEq] at h
          subst h
          have hlt := matchUnit_length_lt hu
          exact ih rest' (by omega) u rest hm
  exact key s.length s le_rfl u rest h

theorem matchUnit_http (r : List Char) :
    matchUnit ('h' :: 't' :: 't' :: 'p' :: ':' :: r) =
      some (['h', 't', 't', 'p', ':'], r) := by
  have h1 : isAsciiLetter 'h' = true := by decide
  have h2 : isSchemeChar 't' = true := by decide
  have h3 : isSchemeChar 'p' = true := by decide
  have h4 : isSchemeChar ':' = false := by decide
  simp [matchUnit, h1, h2, h3, h4, List.takeWhile_cons, List.dropWhile_cons]

theorem matchUnit_https (r : List Char) :
    matchUnit ('h' :: 't' :: 't' :: 'p' :: 's' :: ':' :: r) =
      some (['h', 't', 't', 'p', 's', ':'], r) := by
  have h1 : isAsciiLetter 'h' = true := by decide
  have h2 : isSchemeChar 't' = true := by decide
  have h3 : isSchemeChar 'p' = true := by decide
  have h4 : isSchemeChar 's' = true := by decide
  have h5 : isSchemeChar ':' = false := by decide
  simp [matchUnit, h1, h2, h3, h4, h5, List.takeWhile_cons, List.dropWhile_cons]

/-- C7: the scheme fixer is idempotent: applying it twice gives the same
result as applying it once, for every string. -/
theorem C7_fixScheme_idempotent (s : String) :
    _fixURIStringScheme (_fixURIStringScheme s) = _fixURIStringScheme s := by
  cases hm : matchSchemes s.data with
  | none =>
    have hfix : _fixURIStringScheme s = s := by
      unfold _fixURIStringScheme
      rw [hm]
    rw [hfix]
    exact hfix
  | some p =>
    obtain ⟨u, rest⟩ := p
    have hrest : matchUnit rest = none := matchSchemes_rest_none hm
    have hnone : matchSchemes rest = none := (matchSchemes_none_iff rest).mpr hrest
    by_cases hss : startsWithL ⟨rest⟩ "//" = true
    · -- the fixed scheme is re-prepended
      have hpcases :
          (if (⟨u.map Char.toLower⟩ : String) = "http:" ∨
              (⟨u.map Char.toLower⟩ : String) = "https:"
           then (⟨u.map Char.toLower⟩ : String) else "https:") = "http:" ∨
          (if (⟨u.map Char.toLower⟩ : String) = "http:" ∨
              (⟨u.map Char.toLower⟩ : String) = "https:"
           then (⟨u.map Char.toLower⟩ : String) else "https:") = "https:" := by
        split
        · next h => exact h
        · right; rfl
      have hfix : _fixURIStringScheme s =
          (if (⟨u.map Char.toLower⟩ : String) = "http:" ∨
              (⟨u.map Char.toLower⟩ : String) = "https:"
           then (⟨u.map Char.toLower⟩ : String) else "https:") ++ ⟨rest⟩ := by
        unfold _fixURIStringScheme
        rw [hm]
        dsimp only
        rw [if_pos hss]
      rw [hfix]
      rcases hpcases with hp | hp <;> rw [hp]
      · -- protocol = "http:"
        have hmu : matchUnit (("http:" : String).data ++ rest) =
            some (("http:" : String).data, rest) := matchUnit_http rest
        have hms : matchSchemes (("http:" : String) ++ (⟨rest⟩ : String)).data =
            some (("http:" : String).data, rest) := by
          rw [show (("http:" : String) ++ (⟨rest⟩ : String)).data =
            ("http:" : String).data ++ rest from rfl]
          rw [matchSchemes_eq, hmu]
          dsimp only
          rw [hnone]
        unfold _fixURIStringScheme
        rw [hms]
        dsimp only
        rw [if_pos hss]
        rw [show (⟨(("http:" : String).data).map Char.toLower⟩ : String) = "http:" by decide]
        rw [if_pos (Or.inl rfl)]
      · -- protocol = "https:"
        have hmu : matchUnit (("https:" : String).data ++ rest) =
            some (("https:" : String).data, rest) := matchUnit_https rest
        have hms : matchSchemes (("https:" : String) ++ (⟨rest⟩ : String)).data =
            some (("https:" : String).data, rest) := by
          rw [show (("https:" : String) ++ (⟨rest⟩ : String)).data =
            ("https:" : String).data ++ rest from rfl]
          rw [matchSchemes_eq, hmu]
          dsimp only
          rw [hnone]
        unfold _fixURIStringScheme
        rw [hms]
        dsimp only
        rw [if_pos hss]
        rw [show (⟨(("https:" : String).data).map Char.toLower⟩ : String) = "https:" by decide]
        rw [if_pos (Or.inr rfl)]
    · -- the scheme is dropped
      have hfix : _fixURIStringScheme s = ⟨rest⟩ := by
        unfold _fixURIStringScheme
        rw [hm]
        dsimp only
        rw [if_neg hss]
      rw [hfix]
      unfold _fixURIStringScheme
      rw [show ((⟨rest⟩ : String)).data = rest from rfl, hnone]

/-! ## C2 -/

/-- The tail of a scheme unit as claim C2 words it: letters/digits/`.`/
`+`/`-` (zero or more) followed by the final `:`. -/
def specSchemeTail : List Char → Bool
  | [] => false
  | [c] => c == ':'
  | c :: rest => isSchemeChar c && specSchemeTail rest

/-- A scheme unit as claim C2 words it: a letter followed by
letters/digits/`.`/`+`/`-`, then `:`. -/
def specIsSchemeUnit : List Char → Bool
  | [] => false
  | c :: rest => isAsciiLetter c && specSchemeTail rest

/-- Claim C2's "leading scheme match" test: the input begins with a scheme
unit. -/
def specHasLeadingScheme : List Char → Bool
  | [] => false
  | c :: rest => isAsciiLetter c && ((rest.dropWhile isSchemeChar).head? == some ':')

theorem specSchemeTail_iff {t : List Char} :
    specSchemeTail t = true ↔
      ∃ mid, t = mid ++ [':'] ∧ mid.all isSchemeChar = true := by
  induction t with
  | nil =>
    simp only [specSchemeTail, Bool.false_eq_true, false_iff]
    rintro ⟨mid, hmid, -⟩
    exact absurd hmid.symm (by simp)
  | cons c rest ih =>
    cases rest with
    | nil =>
      simp only [specSchemeTail, beq_iff_eq]
      constructor
      · intro h
        exact ⟨[], by simp [h], by simp⟩
      · rintro ⟨mid, hmid, -⟩
        cases mid with
        | nil => simpa using hmid
        | cons m ms =>
          simp only [List.cons_append, List.cons.injEq] at hmid
          exact absurd hmid.2.symm (by simp)
    | cons d rest' =>
      simp only [specSchemeTail, Bool.and_eq_true, ih]
      constructor
      · rintro ⟨hc, mid, hmid, hall⟩
        exact ⟨c :: mid, by simp [hmid],
          by simp only [List.all_cons, hc, Bool.true_and]; exact hall⟩
      · rintro ⟨mid, hmid, hall⟩
        cases mid with
        | nil => simpa using hmid
        | cons m ms =>
          simp only [List.cons_append, List.cons.injEq] at hmid
          obtain ⟨rfl, hmid2⟩ := hmid
          simp only [List.all_cons, Bool.and_eq_true] at hall
          exact ⟨hall.1, ms, hmid2, List.all_eq_true.mpr fun x hx =>
            List.all_eq_true.mp hall.2 x hx⟩

theorem specIsSchemeUnit_iff {u : List Char} :
    specIsSchemeUnit u = true ↔
      ∃ c mid, u = c :: (mid ++ [':']) ∧ isAsciiLetter c = true ∧
        mid.all isSchemeChar = true := by
  cases u with
  | nil =>
    simp only [specIsSchemeUnit, Bool.false_eq_true, false_iff]
    rintro ⟨c, mid, hmid, -⟩
    exact absurd hmid (by simp)
  | cons c rest =>
    simp only [specIsSchemeUnit, Bool.and_eq_true, specSchemeTail_iff]
    constructor
    · rintro ⟨hc, mid, hmid, hall⟩
      exact ⟨c, mid, by rw [hmid], hc, hall⟩
    · rintro ⟨c', mid, heq, hc, hall⟩
      simp only [List.cons.injEq] at heq
      obtain ⟨rfl, hrest⟩ := heq
      exact ⟨hc, mid, hrest, hall⟩

/-- A single application of the scheme pattern succeeds exactly on the
decompositions `s = u ++ r` with `u` a scheme unit (and is then
deterministic). -/
theorem matchUnit_eq_some_iff {s u r : List Char} :
    matchUnit s = some (u, r) ↔ specIsSchemeUnit u = true ∧ s = u ++ r := by
  constructor
  · intro h
    match s with
    | [] => simp [matchUnit] at h
    | c :: t =>
      simp only [matchUnit] at h
      split at h
      · next hc =>
        split at h
        · next tail heq =>
          simp only [Option.some.injEq, Prod.mk.injEq] at h
          obtain ⟨h1, h2⟩ := h
          subst h2
          refine ⟨?_, ?_⟩
          · rw [← h1, specIsSchemeUnit_iff]
            exact ⟨c, t.takeWhile isSchemeChar, rfl, hc,
              List.all_eq_true.mpr fun x hx => List.mem_takeWhile_imp hx⟩
          · have hsplit := List.takeWhile_append_dropWhile isSchemeChar t
            rw [heq] at hsplit
            rw [← h1]
            simp only [List.cons_append, List.append_assoc, List.singleton_append,
              List.cons.injEq, true_and]
            exact hsplit.symm
        · exact absurd h (by simp)
      · exact absurd h (by simp)
  · rintro ⟨hu, rfl⟩
    rw [specIsSchemeUnit_iff] at hu
    obtain ⟨c, mid, rfl, hc, hall⟩ := hu
    have hallm : ∀ x ∈ mid, isSchemeChar x = true := List.all_eq_true.mp hall
    simp only [List.cons_append, matchUnit, hc, if_true]
    rw [List.append_assoc, List.singleton_append]
    rw [dropWhile_append_all _ hallm, takeWhile_append_all _ hallm]
    rw [dropWhile_cons_of_neg _ (by decide), takeWhile_cons_of_neg _ (by decide)]
    simp

/-- The spec-side leading-scheme test agrees with the embedded matcher. -/
theorem specHasLeadingScheme_eq_isSome (l : List Char) :
    specHasLeadingScheme l = (matchUnit l).isSome := by
  cases l with
  | nil => rfl
  | cons c t =>
    simp only [specHasLeadingScheme, matchUnit]
    cases hc : isAsciiLetter c
    · simp
    · simp only [Bool.true_and, if_true]
      cases hd : t.dropWhile isSchemeChar with
      | nil => simp
      | cons d rest =>
        by_cases hdc : d = ':'
        · subst hdc
          simp
        · have hbeq : (d == ':') = false := by simpa using hdc
          simp only [List.head?_cons]
          rw [show (some d == some ':') = (d == ':') from rfl, hbeq]
          split
          · next tail heq =>
            simp only [List.cons.injEq] at heq
            exact absurd heq.1 hdc
          · simp

/-- Claim C2's "begins with a scheme unit" reading coincides with the
scanner `specHasLeadingScheme`. -/
theorem specHasLeadingScheme_iff_exists {l : List Char} :
    specHasLeadingScheme l = true ↔
      ∃ v r, specIsSchemeUnit v = true ∧ l = v ++ r := by
  rw [specHasLeadingScheme_eq_isSome]
  constructor
  · intro h
    obtain ⟨⟨u, r⟩, hur⟩ := Option.isSome_iff_exists.mp h
    obtain ⟨h1, h2⟩ := matchUnit_eq_some_iff.mp hur
    exact ⟨u, r, h1, h2⟩
  · rintro ⟨v, r, hv, rfl⟩
    rw [matchUnit_eq_some_iff.mpr ⟨hv, rfl⟩]
    rfl

theorem specHasLeadingScheme_false_iff {l : List Char} :
    specHasLeadingScheme l = false ↔ matchUnit l = none := by
  rw [specHasLeadingScheme_eq_isSome]
  cases hm : matchUnit l <;> simp

/-- Completeness direction of the greedy `(scheme)+` match: any maximal
decomposition into scheme units is the one the matcher finds. -/
theorem matchSchemes_of_spec :
    ∀ (us : List (List Char)) (s rest u : List Char),
      us ≠ [] → (∀ v ∈ us, specIsSchemeUnit v = true) →
      s = us.flatten ++ rest → us.getLast? = some u → matchUnit rest = none →
      matchSchemes s = some (u, rest) := by
  intro us
  induction us with
  | nil => intro s rest u hne; exact absurd rfl hne
  | cons v us' ih =>
    intro s rest u hne hall hs hlast hrestnone
    have hv : specIsSchemeUnit v = true := hall v (by simp)
    cases us' with
    | nil =>
      have hmu : matchUnit s = some (v, rest) :=
        matchUnit_eq_some_iff.mpr ⟨hv, by simpa using hs⟩
      have hlast' : u = v := by
        simp only [List.getLast?_singleton, Option.some.injEq] at hlast
        exact hlast.symm
      rw [matchSchemes_eq, hmu]
      dsimp only
      rw [(matchSchemes_none_iff rest).mpr hrestnone, hlast']
    | cons w us'' =>
      have hmu : matchUnit s = some (v, (w :: us'').flatten ++ rest) :=
        matchUnit_eq_some_iff.mpr ⟨hv, by rw [hs]; simp [List.append_assoc]⟩
      have hms : matchSchemes ((w :: us'').flatten ++ rest) = some (u, rest) :=
        ih ((w :: us'').flatten ++ rest) rest u (by simp)
          (fun x hx => hall x (by simp [hx])) rfl
          (by simpa using hlast) hrestnone
      rw [matchSchemes_eq, hmu]
      dsimp only
      rw [hms]

/-- C2 counterexample: for `"HTTP://x"` the (single) matched scheme is
`"HTTP:"`, which is not exactly `http:` or `https:`, so the claim requires
the retained scheme to become `https:`; the code lowercases before
comparing and produces `"http://x"`, not `"https://x"`. -/
theorem C2_counterexample :
    specIsSchemeUnit ("HTTP:" : String).data = true ∧
    ("HTTP://x" : String).data = ("HTTP:" : String).data ++ ("//x" : String).data ∧
    specHasLeadingScheme ("//x" : String).data = false ∧
    ("HTTP:" : String) ≠ "http:" ∧ ("HTTP:" : String) ≠ "https:" ∧
    _fixURIStringScheme "HTTP://x" = "http://x" ∧
    _fixURIStringScheme "HTTP://x" ≠ "https://x" := by
  refine ⟨by decide, by decide, by decide, by decide, by decide, by decide, by decide⟩

/-- C2 amended: on a maximal leading chain of scheme units the fixer keeps
the **lowercased** last unit, replaces it with `https:` unless the
lowercased unit is exactly `http:` or `https:`, strips all matched units,
re-prepends the fixed scheme iff the remainder starts with `//` and drops
it otherwise; with no leading scheme match the input is returned
unchanged. -/
theorem C2_scheme_fixer :
    (∀ (s : String) (us : List (List Char)) (rest : List Char) (hne : us ≠ []),
      (∀ v ∈ us, specIsSchemeUnit v = true) →
      s.data = us.flatten ++ rest →
      specHasLeadingScheme rest = false →
      _fixURIStringScheme s =
        (let p0 : String := ⟨(us.getLast hne).map Char.toLower⟩
         let p : String := if p0 = "http:" ∨ p0 = "https:" then p0 else "https:"
         if startsWithL ⟨rest⟩ "//" then p ++ ⟨rest⟩ else ⟨rest⟩)) ∧
    (∀ s : String, specHasLeadingScheme s.data = false → _fixURIStringScheme s = s) := by
  constructor
  · intro s us rest hne hall hs hmax
    have hms : matchSchemes s.data = some (us.getLast hne, rest) :=
      matchSchemes_of_spec us s.data rest (us.getLast hne) hne hall hs
        (List.getLast?_eq_getLast us hne) (specHasLeadingScheme_false_iff.mp hmax)
    unfold _fixURIStringScheme
    rw [hms]
  · intro s hmax
    have hnone : matchSchemes s.data = none :=
      (matchSchemes_none_iff s.data).mpr (specHasLeadingScheme_false_iff.mp hmax)
    unfold _fixURIStringScheme
    rw [hnone]

/-- C2 witness: the characterization applied at a chained-scheme input and
at a scheme-free input. -/
theorem C2_witness :
    _fixURIStringScheme "app:https://x" =
      (let p0 : String :=
        ⟨([("app:" : String).data, ("https:" : String).data].getLast
            (by decide)).map Char.toLower⟩
       let p : String := if p0 = "http:" ∨ p0 = "https:" then p0 else "https:"
       if startsWithL ⟨("//x" : String).data⟩ "//" then p ++ ⟨("//x" : String).data⟩
       else ⟨("//x" : String).data⟩) ∧
    _fixURIStringScheme "room" = "room" :=
  ⟨C2_scheme_fixer.1 "app:https://x" [("app:" : String).data, ("https:" : String).data]
      ("//x" : String).data (by decide) (by decide) (by decide) (by decide),
   C2_scheme_fixer.2 "room" (by decide)⟩

/-! ## C6 -/

/-- Canonical-host characters: no authority delimiter, no userinfo marker,
no whitespace. -/
def hostCharOk (c : Char) : Bool :=
  !(c == '/' || c == '?' || c == '#' || c == '@' || isJsWs c)

/-- Canonical-path characters: no query/fragment delimiter, no whitespace. -/
def pathCharOk (c : Char) : Bool :=
  !(c == '?' || c == '#' || isJsWs c)

/-- Canonical-query characters: no fragment delimiter, no whitespace. -/
def queryCharOk (c : Char) : Bool :=
  !(c == '#' || isJsWs c)

theorem hostCharOk_spec {c : Char} (h : hostCharOk c = true) :
    (c == '/') = false ∧ (c == '?') = false ∧ (c == '#') = false ∧
    (c == '@') = false ∧ isJsWs c = false := by
  unfold hostCharOk at h
  cases h1 : (c == '/') <;> cases h2 : (c == '?') <;> cases h3 : (c == '#') <;>
    cases h4 : (c == '@') <;> cases h5 : isJsWs c <;> simp_all

theorem pathCharOk_spec {c : Char} (h : pathCharOk c = true) :
    (c == '?') = false ∧ (c == '#') = false ∧ isJsWs c = false := by
  unfold pathCharOk at h
  cases h1 : (c == '?') <;> cases h2 : (c == '#') <;> cases h3 : isJsWs c <;> simp_all

theorem queryCharOk_spec {c : Char} (h : queryCharOk c = true) :
    (c == '#') = false ∧ isJsWs c = false := by
  unfold queryCharOk at h
  cases h1 : (c == '#') <;> cases h2 : isJsWs c <;> simp_all

/-- Authority section on a canonical `//host` + path remainder. -/
theorem parseAuthority_canonical {host pt q : List Char}
    (hne : host ≠ []) (hh : ∀ c ∈ host, hostCharOk c = true) :
    parseAuthority ('/' :: '/' :: (host ++ ('/' :: pt ++ q))) =
      (some (host, (splitPort host).1, (splitPort host).2), '/' :: pt ++ q) := by
  have hauth : ∀ c ∈ host, (!isAuthorityEnd c) = true := by
    intro c hc
    obtain ⟨h1, h2, h3, -, -⟩ := hostCharOk_spec (hh c hc)
    unfold isAuthorityEnd
    rw [h1, h2, h3]
    rfl
  simp only [parseAuthority]
  rw [takeWhile_append_all _ hauth, dropWhile_append_all _ hauth]
  simp only [List.cons_append]
  rw [@takeWhile_cons_of_neg (fun c => !isAuthorityEnd c) '/' (pt ++ q) (by decide),
    @dropWhile_cons_of_neg (fun c => !isAuthorityEnd c) '/' (pt ++ q) (by decide)]
  rw [List.append_nil]
  rw [if_neg (by simpa [List.isEmpty_iff] using hne)]
  have hstrip : stripUserinfo host = host := by
    unfold stripUserinfo
    rw [if_neg ?_]
    intro hcon
    have hmem : '@' ∈ host := by
      simpa using hcon
    obtain ⟨-, -, -, h4, -⟩ := hostCharOk_spec (hh '@' hmem)
    simp at h4
  rw [hstrip]

/-- Pathname section on a canonical path + query remainder. -/
theorem parsePathname_canonical {pt q : List Char}
    (hp : ∀ c ∈ ('/' :: pt), pathCharOk c = true) (hq : ∃ t, q = '?' :: t) :
    parsePathname (('/' :: pt) ++ q) = ('/' :: pt, q) := by
  obtain ⟨qt, rfl⟩ := hq
  have hpok : ∀ c ∈ ('/' :: pt), (!(c == '?' || c == '#')) = true := by
    intro c hc
    obtain ⟨h1, h2, -⟩ := pathCharOk_spec (hp c hc)
    rw [Bool.not_eq_true']
    rw [h1, h2]
    rfl
  unfold parsePathname
  rw [takeWhile_append_all _ hpok, dropWhile_append_all _ hpok]
  rw [@takeWhile_cons_of_neg (fun c => !(c == '?' || c == '#')) '?' qt (by decide),
    @dropWhile_cons_of_neg (fun c => !(c == '?' || c == '#')) '?' qt (by decide)]
  rw [List.append_nil]
  simp

/-- Query section on a canonical query + fragment remainder. -/
theorem parseSearch_canonical {qt f : List Char}
    (hq : ∀ c ∈ ('?' :: qt), queryCharOk c = true) (hf : ∃ t, f = '#' :: t) :
    parseSearch (('?' :: qt) ++ f) = ('?' :: qt, f) := by
  obtain ⟨ft, rfl⟩ := hf
  have hqok : ∀ c ∈ qt, (c ≠ '#' : Bool) = true := by
    intro c hc
    obtain ⟨h1, -⟩ := queryCharOk_spec (hq c (by simp [hc]))
    simpa using h1
  simp only [parseSearch, List.cons_append]
  rw [takeWhile_append_all _ hqok, dropWhile_append_all _ hqok]
  rw [@takeWhile_cons_of_neg (· ≠ '#') '#' ft (by decide),
    @dropWhile_cons_of_neg (· ≠ '#') '#' ft (by decide)]
  rw [List.append_nil]

/-- Parse-then-stringify, with the stringifier body applied to the parsed
record itself (the behaviour the attached `toString` was intended to
have), is the identity on canonical URI strings carrying a well-known
scheme, an authority, a path, a query and a fragment. -/
theorem parse_record_roundtrip (scheme host path query frag : String)
    (hscheme : scheme = "http:" ∨ scheme = "https:")
    (hhostne : host.data ≠ [])
    (hhost : ∀ c ∈ host.data, hostCharOk c = true)
    (hpath : ∃ t, path.data = '/' :: t)
    (hpathok : ∀ c ∈ path.data, pathCharOk c = true)
    (hquery : ∃ t, query.data = '?' :: t)
    (hqueryok : ∀ c ∈ query.data, queryCharOk c = true)
    (hfrag : ∃ t, frag.data = '#' :: t)
    (hfragok : ∀ c ∈ frag.data, isJsWs c = false) :
    _standardURIToString
        (parseStandardURIString (scheme ++ "//" ++ host ++ path ++ query ++ frag)) =
      scheme ++ "//" ++ host ++ path ++ query ++ frag := by
  obtain ⟨pt, hpt⟩ := hpath
  obtain ⟨qt, hqt⟩ := hquery
  obtain ⟨ft, hft⟩ := hfrag
  have hmu : ∀ X, matchUnit (scheme.data ++ X) = some (scheme.data, X) := by
    rcases hscheme with rfl | rfl
    · exact matchUnit_http
    · exact matchUnit_https
  have hlower : scheme.data.map Char.toLower = scheme.data := by
    rcases hscheme with rfl | rfl <;> decide
  have hschemews : ∀ c ∈ scheme.data, isJsWs c = false := by
    rcases hscheme with rfl | rfl <;> decide
  have hsne : scheme.data.isEmpty = false := by
    rcases hscheme with rfl | rfl <;> decide
  have hsdata : (scheme ++ "//" ++ host ++ path ++ query ++ frag).data
      = scheme.data ++
          ('/' :: '/' :: (host.data ++ (path.data ++ (query.data ++ frag.data)))) := by
    simp only [data_append, List.append_assoc]
    rfl
  have hws : ∀ c ∈ (scheme ++ "//" ++ host ++ path ++ query ++ frag).data,
      (!isJsWs c) = true := by
    intro c hc
    rw [hsdata] at hc
    simp only [List.mem_append, List.mem_cons] at hc
    rw [Bool.not_eq_true']
    rcases hc with h | h | h | h | h | h | h
    · exact hschemews c h
    · subst h; decide
    · subst h; decide
    · exact (hostCharOk_spec (hhost c h)).2.2.2.2
    · exact (pathCharOk_spec (hpathok c h)).2.2
    · exact (queryCharOk_spec (hqueryok c h)).2
    · exact hfragok c h
  have hrec : parseStandardURIString (scheme ++ "//" ++ host ++ path ++ query ++ frag) =
      { protocol := some scheme,
        host := some host,
        hostname := some ⟨(splitPort host.data).1⟩,
        port := (splitPort host.data).2.map (⟨·⟩),
        pathname := path, search := query, hash := frag } := by
    simp only [parseStandardURIString]
    rw [List.filter_eq_self.mpr hws, hsdata]
    have hproto : parseProtocol (scheme.data ++
        ('/' :: '/' :: (host.data ++ (path.data ++ (query.data ++ frag.data))))) =
        (some scheme.data,
          '/' :: '/' :: (host.data ++ (path.data ++ (query.data ++ frag.data)))) := by
      unfold parseProtocol
      rw [hmu]
      dsimp only
      rw [hlower]
    rw [hproto]
    dsimp only
    rw [hpt]
    have hauth := @parseAuthority_canonical host.data pt
      (query.data ++ frag.data) hhostne hhost
    rw [hauth]
    dsimp only
    have hpathlem := @parsePathname_canonical pt (query.data ++ frag.data)
      (by rw [← hpt]; exact hpathok) ⟨qt ++ frag.data, by rw [hqt]; rfl⟩
    rw [hpathlem]
    dsimp only
    rw [hqt]
    have hsearchlem := @parseSearch_canonical qt frag.data
      (by rw [← hqt]; exact hqueryok) ⟨ft, hft⟩
    rw [hsearchlem]
    dsimp only
    have hhashlem : parseHash frag.data = frag.data := by
      rw [hft]
      rfl
    rw [hhashlem]
    rw [← hpt, ← hqt]
    rfl
  rw [hrec]
  unfold _standardURIToString _standardURIToStringOn
  dsimp only
  rw [hsne]
  rw [show host.data.isEmpty = false by simpa [List.isEmpty_iff] using hhostne]
  rw [show path.data.isEmpty = false by rw [hpt]; rfl]
  rw [show query.data.isEmpty = false by rw [hqt]; rfl]
  rw [show frag.data.isEmpty = false by rw [hft]; rfl]
  simp only [Bool.false_eq_true, if_false]

/-- The record-level round trip evaluated at the spec's concrete example
URI. -/
theorem parse_record_roundtrip_example :
    _standardURIToString
        (parseStandardURIString
          (("https:" : String) ++ "//" ++ "meet.example.com" ++ "/foo/bar" ++
            "?x=1" ++ "#hash")) =
      ("https:" : String) ++ "//" ++ "meet.example.com" ++ "/foo/bar" ++
        "?x=1" ++ "#hash" :=
  parse_record_roundtrip "https:" "meet.example.com" "/foo/bar" "?x=1" "#hash"
    (Or.inr rfl) (by decide) (by decide) ⟨"foo/bar".data, by decide⟩ (by decide)
    ⟨"x=1".data, by decide⟩ (by decide) ⟨"hash".data, by decide⟩ (by decide)

/-- C6 (code bug): the round-trip claim is the spec's evident intent —
the stringifier body applied to the parsed record reconstructs the
canonical input exactly (last conjunct; see `parse_record_roundtrip` for
the general statement) — but the program's
`parseStandardURIString(s).toString()` is a **zero-argument call of an
arrow function**: `thiz || this` resolves to the module-scope `this`, the
record is never read, and the call returns `"/"` under a CommonJS build
(or throws a `TypeError` under an ES-module build), never `s`. -/
theorem C6_zero_arg_toString_bug :
    uriToStringZeroArg ModuleSys.cjs
        (parseStandardURIString "https://meet.example.com/foo/bar?x=1#hash") = .ok "/" ∧
    uriToStringZeroArg ModuleSys.esm
        (parseStandardURIString "https://meet.example.com/foo/bar?x=1#hash") = .error () ∧
    ("/" : String) ≠ "https://meet.example.com/foo/bar?x=1#hash" ∧
    _standardURIToString
        (parseStandardURIString "https://meet.example.com/foo/bar?x=1#hash") =
      "https://meet.example.com/foo/bar?x=1#hash" := by
  refine ⟨by rfl, by rfl, by decide, by decide⟩

end UriTs
